import Mathlib

/-!
Verification of the felpsbot-redis JSON command layer
(src/felpsbot-redis/felpsbot_redis/async_json/commands.py and its
collaborators).  The development shallowly embeds the command builders as
pure Lean functions over a token type, and models the Value Codec
(delegated by the source to the standard JSON encoder/decoder) from the
specification, proving the round-trip law and the token-layout properties
of each builder.
-/

namespace FelpsbotRedis

/-- Modelled from the spec: the JSON-representable value domain handled by
the Value Codec — object, array, string, number, boolean, null, or nested
combinations (spec §3 Document).  Numbers are modelled as integers. -/
inductive Json where
  | null : Json
  | bool (b : Bool) : Json
  | int (n : Int) : Json
  | str (s : String) : Json
  | arr (xs : List Json) : Json
  | obj (kvs : List (String × Json)) : Json

/-- The decimal digit characters used when rendering numbers. -/
def digChar : Nat → Char
  | 0 => '0'
  | 1 => '1'
  | 2 => '2'
  | 3 => '3'
  | 4 => '4'
  | 5 => '5'
  | 6 => '6'
  | 7 => '7'
  | 8 => '8'
  | _ => '9'

/-- Numeric value of a digit character. -/
def digVal (c : Char) : Nat := c.toNat - 48

/-- Whether a character is a decimal digit. -/
def isDig (c : Char) : Bool := decide (48 ≤ c.toNat ∧ c.toNat ≤ 57)

/-- Decimal rendering of a natural number, most significant digit first. -/
def natPrint (m : Nat) : List Char :=
  if m = 0 then ['0'] else ((Nat.digits 10 m).reverse.map digChar)

/-- Decimal rendering of an integer (as Python's json.dumps renders ints). -/
def intPrint (n : Int) : List Char :=
  if n < 0 then '-' :: natPrint n.natAbs else natPrint n.toNat

/-- JSON string escaping of a single character. -/
def escChar (c : Char) : List Char :=
  if c = '"' then ['\\', '"']
  else if c = '\\' then ['\\', '\\']
  else [c]

/-- JSON string escaping of a character list. -/
def esc : List Char → List Char
  | [] => []
  | c :: cs => escChar c ++ esc cs

/-- A JSON string literal: opening quote, escaped body, closing quote. -/
def strLit (s : String) : List Char := '"' :: (esc s.data ++ ['"'])

/-- The rendered JSON literal for null. -/
def litNull : List Char := ['n', 'u', 'l', 'l']

/-- The rendered JSON literal for true. -/
def litTrue : List Char := ['t', 'r', 'u', 'e']

/-- The rendered JSON literal for false. -/
def litFalse : List Char := ['f', 'a', 'l', 's', 'e']

mutual

/-- Modelled from the spec: the Value Codec's serializer (§4.2 encode),
rendered with Python json.dumps' default separators (", " and ": "). -/
def printVal : Json → List Char
  | .null => litNull
  | .bool true => litTrue
  | .bool false => litFalse
  | .int n => intPrint n
  | .str s => strLit s
  | .arr xs => '[' :: printArr xs
  | .obj kvs => '{' :: printObj kvs

/-- Array elements after the opening bracket, including the closing bracket. -/
def printArr : List Json → List Char
  | [] => [']']
  | x :: xs => printVal x ++ printArrSep xs

/-- Remaining array elements, each preceded by ", ", then the closing bracket. -/
def printArrSep : List Json → List Char
  | [] => [']']
  | x :: xs => ',' :: ' ' :: (printVal x ++ printArrSep xs)

/-- Object members after the opening brace, including the closing brace. -/
def printObj : List (String × Json) → List Char
  | [] => ['}']
  | (k, v) :: kvs => strLit k ++ (':' :: ' ' :: (printVal v ++ printObjSep kvs))

/-- Remaining object members, each preceded by ", ", then the closing brace. -/
def printObjSep : List (String × Json) → List Char
  | [] => ['}']
  | (k, v) :: kvs =>
    ',' :: ' ' :: (strLit k ++ (':' :: ' ' :: (printVal v ++ printObjSep kvs)))

end

/-- Modelled from the spec: encode (§4.2) — serializes a JSON-compatible
value into its wire text form.  Total on the JSON-representable domain. -/
def encode (v : Json) : String := String.mk (printVal v)

/-- Unescaping of the character following a backslash in a string literal. -/
def unesc (c : Char) : Option Char :=
  if c = '"' then some '"'
  else if c = '\\' then some '\\'
  else none

mutual

/-- Parses the body of a string literal (after the opening quote) up to and
including the closing quote, returning the body and the remaining input. -/
def parseStrBody : List Char → Option (List Char × List Char)
  | [] => none
  | c :: cs =>
    if c = '"' then some ([], cs)
    else if c = '\\' then parseEscTail cs
    else
      match parseStrBody cs with
      | some (s, r) => some (c :: s, r)
      | none => none
termination_by cs => cs.length

/-- Parses the character after a backslash and the rest of the literal. -/
def parseEscTail : List Char → Option (List Char × List Char)
  | [] => none
  | d :: cs2 =>
    match unesc d, parseStrBody cs2 with
    | some u, some (s, r) => some (u :: s, r)
    | _, _ => none
termination_by cs => cs.length

end

/-- Numeric value of a nonempty digit run, most significant digit first. -/
def valOfDigits (ds : List Char) : Nat := Nat.ofDigits 10 (ds.map digVal).reverse

/-- Parses a maximal nonempty run of decimal digits. -/
def parseDigits (cs : List Char) : Option (Nat × List Char) :=
  match cs.takeWhile isDig with
  | [] => none
  | d :: ds => some (valOfDigits (d :: ds), cs.dropWhile isDig)

/-- Parses the tail of the literal "null". -/
def expectNull : List Char → Option (Json × List Char)
  | 'u' :: 'l' :: 'l' :: r => some (Json.null, r)
  | _ => none

/-- Parses the tail of the literal "true". -/
def expectTrue : List Char → Option (Json × List Char)
  | 'r' :: 'u' :: 'e' :: r => some (Json.bool true, r)
  | _ => none

/-- Parses the tail of the literal "false". -/
def expectFalse : List Char → Option (Json × List Char)
  | 'a' :: 'l' :: 's' :: 'e' :: r => some (Json.bool false, r)
  | _ => none

/-- Input that cannot extend a just-parsed number: empty, or not a digit. -/
def restOk : List Char → Bool
  | [] => true
  | c :: _ => !isDig c

mutual

/-- Modelled from the spec: the Value Codec's parser (§4.2 decode), a
fuelled recursive-descent parser over the grammar emitted by printVal. -/
def parseVal : Nat → List Char → Option (Json × List Char)
  | 0, _ => none
  | _ + 1, [] => none
  | f + 1, c :: cs =>
    if c = 'n' then expectNull cs
    else if c = 't' then expectTrue cs
    else if c = 'f' then expectFalse cs
    else if c = '"' then
      match parseStrBody cs with
      | some (l, r) => some (Json.str (String.mk l), r)
      | none => none
    else if c = '[' then
      match parseArr f cs with
      | some (xs, r) => some (Json.arr xs, r)
      | none => none
    else if c = '{' then
      match parseObj f cs with
      | some (kvs, r) => some (Json.obj kvs, r)
      | none => none
    else if c = '-' then
      match parseDigits cs with
      | some (m, r) => some (Json.int (-(m : Int)), r)
      | none => none
    else if isDig c then
      match parseDigits (c :: cs) with
      | some (m, r) => some (Json.int (m : Int), r)
      | none => none
    else none

/-- Parses array elements after the opening bracket. -/
def parseArr : Nat → List Char → Option (List Json × List Char)
  | 0, _ => none
  | _ + 1, [] => none
  | f + 1, c :: cs =>
    if c = ']' then some ([], cs)
    else
      match parseVal f (c :: cs) with
      | some (x, r) =>
        match parseArrSep f r with
        | some (xs, r2) => some (x :: xs, r2)
        | none => none
      | none => none

/-- Parses ", element" continuations of an array, or its closing bracket. -/
def parseArrSep : Nat → List Char → Option (List Json × List Char)
  | _ + 1, ']' :: cs => some ([], cs)
  | f + 1, ',' :: ' ' :: cs2 =>
    match parseVal f cs2 with
    | some (x, r) =>
      match parseArrSep f r with
      | some (xs, r2) => some (x :: xs, r2)
      | none => none
    | none => none
  | _, _ => none

/-- Parses object members after the opening brace. -/
def parseObj : Nat → List Char → Option (List (String × Json) × List Char)
  | 0, _ => none
  | _ + 1, [] => none
  | f + 1, c :: cs =>
    if c = '}' then some ([], cs)
    else if c = '"' then parseMember f cs
    else none

/-- Parses one "key": value member (after the key's opening quote) and the
following members. -/
def parseMember : Nat → List Char → Option (List (String × Json) × List Char)
  | 0, _ => none
  | f + 1, cs =>
    match parseStrBody cs with
    | some (k, ':' :: ' ' :: r) =>
      match parseVal f r with
      | some (v, r2) =>
        match parseObjSep f r2 with
        | some (kvs, r3) => some ((String.mk k, v) :: kvs, r3)
        | none => none
      | none => none
    | _ => none

/-- Parses ", "key": value" continuations of an object, or its closing brace. -/
def parseObjSep : Nat → List Char → Option (List (String × Json) × List Char)
  | _ + 1, '}' :: cs => some ([], cs)
  | f + 1, ',' :: ' ' :: '"' :: cs2 => parseMember f cs2
  | _, _ => none

end

/-- Modelled from the spec: decode (§4.2) — parses a wire value back into
the application-level JSON value, failing on input it cannot parse. -/
def decode (s : String) : Option Json :=
  match parseVal (s.data.length + 1) s.data with
  | some (v, []) => some v
  | _ => none

theorem digChar_isDig (d : Nat) : isDig (digChar d) = true := by
  unfold digChar
  split <;> decide

theorem digVal_digChar (d : Nat) (h : d < 10) : digVal (digChar d) = d := by
  interval_cases d <;> decide

theorem isDig_ne (c : Char) (h : isDig c = true) :
    c ≠ 'n' ∧ c ≠ 't' ∧ c ≠ 'f' ∧ c ≠ '"' ∧ c ≠ '[' ∧ c ≠ '{' ∧ c ≠ '-' ∧
      c ≠ ']' ∧ c ≠ '}' ∧ c ≠ ',' := by
  refine ⟨?_, ?_, ?_, ?_, ?_, ?_, ?_, ?_, ?_, ?_⟩ <;>
    (rintro rfl; revert h; decide)

theorem natPrint_all_dig (m : Nat) : ∀ c ∈ natPrint m, isDig c = true := by
  intro c hc
  unfold natPrint at hc
  by_cases hm : m = 0
  · rw [if_pos hm] at hc
    simp at hc
    subst hc
    decide
  · rw [if_neg hm] at hc
    simp only [List.mem_map] at hc
    obtain ⟨d, -, rfl⟩ := hc
    exact digChar_isDig d

theorem natPrint_ne_nil (m : Nat) : natPrint m ≠ [] := by
  unfold natPrint
  by_cases hm : m = 0
  · simp [hm]
  · rw [if_neg hm]
    simp [hm, Nat.digits_ne_nil_iff_ne_zero]

theorem natPrint_cons (m : Nat) : ∃ c t, natPrint m = c :: t ∧ isDig c = true := by
  cases h : natPrint m with
  | nil => exact absurd h (natPrint_ne_nil m)
  | cons c t =>
    refine ⟨c, t, rfl, natPrint_all_dig m c ?_⟩
    rw [h]
    exact List.mem_cons_self c t

theorem valOfDigits_natPrint (m : Nat) : valOfDigits (natPrint m) = m := by
  by_cases hm : m = 0
  · subst hm
    decide
  · rw [natPrint, if_neg hm]
    unfold valOfDigits
    rw [← List.map_reverse, ← List.map_reverse, List.reverse_reverse, List.map_map]
    rw [List.map_congr_left (g := id) (fun d hd => by
      exact digVal_digChar d (Nat.digits_lt_base (by norm_num) hd))]
    rw [List.map_id]
    exact Nat.ofDigits_digits 10 m

theorem restOk_take_drop (rest : List Char) (h : restOk rest = true) :
    rest.takeWhile isDig = [] ∧ rest.dropWhile isDig = rest := by
  cases rest with
  | nil => simp
  | cons c t =>
    have hc : isDig c = false := by simpa [restOk] using h
    rw [List.takeWhile_cons_of_neg (by simp [hc]), List.dropWhile_cons_of_neg (by simp [hc])]
    exact ⟨rfl, rfl⟩

theorem parseDigits_natPrint (m : Nat) (rest : List Char) (h : restOk rest = true) :
    parseDigits (natPrint m ++ rest) = some (m, rest) := by
  obtain ⟨c, t, hct, -⟩ := natPrint_cons m
  have hall : ∀ a ∈ natPrint m, isDig a = true := natPrint_all_dig m
  have htw : (natPrint m ++ rest).takeWhile isDig = natPrint m := by
    rw [List.takeWhile_append_of_pos hall, (restOk_take_drop rest h).1, List.append_nil]
  have hdw : (natPrint m ++ rest).dropWhile isDig = rest := by
    rw [List.dropWhile_append_of_pos hall, (restOk_take_drop rest h).2]
  unfold parseDigits
  rw [htw, hdw, hct]
  show some (valOfDigits (c :: t), rest) = some (m, rest)
  rw [← hct, valOfDigits_natPrint]

theorem parseStrBody_esc (l rest : List Char) :
    parseStrBody (esc l ++ '"' :: rest) = some (l, rest) := by
  induction l with
  | nil => simp [esc, parseStrBody]
  | cons c cs ih =>
    by_cases h1 : c = '"'
    · subst h1
      simp [esc, escChar, parseStrBody, parseEscTail, unesc, ih]
    · by_cases h2 : c = '\\'
      · subst h2
        simp [esc, escChar, parseStrBody, parseEscTail, unesc, ih]
      · simp [esc, escChar, parseStrBody, h1, h2, ih]

theorem printVal_cons (v : Json) :
    ∃ c t, printVal v = c :: t ∧ c ≠ ']' ∧ c ≠ '}' := by
  cases v with
  | null => exact ⟨'n', ['u', 'l', 'l'], by simp [printVal, litNull], by decide, by decide⟩
  | bool b =>
    cases b with
    | true => exact ⟨'t', ['r', 'u', 'e'], by simp [printVal, litTrue], by decide, by decide⟩
    | false =>
      exact ⟨'f', ['a', 'l', 's', 'e'], by simp [printVal, litFalse], by decide, by decide⟩
  | int n =>
    by_cases hn : n < 0
    · exact ⟨'-', natPrint n.natAbs, by simp [printVal, intPrint, hn], by decide, by decide⟩
    · obtain ⟨c, t, hct, hdig⟩ := natPrint_cons n.toNat
      have h := isDig_ne c hdig
      exact ⟨c, t, by simp [printVal, intPrint, hn, hct],
        h.2.2.2.2.2.2.2.1, h.2.2.2.2.2.2.2.2.1⟩
  | str s => exact ⟨'"', esc s.data ++ ['"'], by simp [printVal, strLit], by decide, by decide⟩
  | arr xs => exact ⟨'[', printArr xs, by simp [printVal], by decide, by decide⟩
  | obj kvs => exact ⟨'{', printObj kvs, by simp [printVal], by decide, by decide⟩

theorem printVal_length_pos (v : Json) : 1 ≤ (printVal v).length := by
  obtain ⟨c, t, h, -, -⟩ := printVal_cons v
  simp [h]

theorem printArrSep_length_pos (xs : List Json) : 1 ≤ (printArrSep xs).length := by
  cases xs <;> simp [printArrSep]

theorem printObjSep_length_pos (kvs : List (String × Json)) :
    1 ≤ (printObjSep kvs).length := by
  cases kvs with
  | nil => simp [printObjSep]
  | cons kv kvs =>
    obtain ⟨k, v⟩ := kv
    simp [printObjSep]

theorem restOk_printArrSep (xs : List Json) (r : List Char) :
    restOk (printArrSep xs ++ r) = true := by
  cases xs <;> (simp [printArrSep, restOk]; decide)

theorem restOk_printObjSep (kvs : List (String × Json)) (r : List Char) :
    restOk (printObjSep kvs ++ r) = true := by
  cases kvs with
  | nil => simp [printObjSep, restOk]; decide
  | cons kv kvs =>
    obtain ⟨k, v⟩ := kv
    simp [printObjSep, restOk]; decide

theorem parse_print_aux (f : Nat) :
    (∀ v rest, (printVal v).length + 1 ≤ f → restOk rest = true →
       parseVal f (printVal v ++ rest) = some (v, rest)) ∧
    (∀ xs rest, (printArr xs).length + 1 ≤ f →
       parseArr f (printArr xs ++ rest) = some (xs, rest)) ∧
    (∀ xs rest, (printArrSep xs).length + 1 ≤ f →
       parseArrSep f (printArrSep xs ++ rest) = some (xs, rest)) ∧
    (∀ kvs rest, (printObj kvs).length + 1 ≤ f →
       parseObj f (printObj kvs ++ rest) = some (kvs, rest)) ∧
    (∀ kvs rest, (printObjSep kvs).length + 1 ≤ f →
       parseObjSep f (printObjSep kvs ++ rest) = some (kvs, rest)) ∧
    (∀ (k : String) (v : Json) kvs rest,
       (printVal v).length + (printObjSep kvs).length + 1 ≤ f →
       parseMember f
           (esc k.data ++ '"' :: ':' :: ' ' :: (printVal v ++ (printObjSep kvs ++ rest))) =
         some ((k, v) :: kvs, rest)) := by
  induction f with
  | zero =>
    exact ⟨fun v rest h _ => absurd h (by omega),
           fun xs rest h => absurd h (by omega),
           fun xs rest h => absurd h (by omega),
           fun kvs rest h => absurd h (by omega),
           fun kvs rest h => absurd h (by omega),
           fun k v kvs rest h => absurd h (by omega)⟩
  | succ f ih =>
    obtain ⟨ihA, ihB, ihB2, ihC, ihC2, ihD⟩ := ih
    refine ⟨?_, ?_, ?_, ?_, ?_, ?_⟩
    · -- parseVal
      intro v rest hlen hrest
      cases v with
      | null => simp [printVal, litNull, parseVal, expectNull]
      | bool b =>
        cases b <;> simp [printVal, litTrue, litFalse, parseVal, expectTrue, expectFalse]
      | int n =>
        by_cases hn : n < 0
        · rw [show printVal (Json.int n) = '-' :: natPrint n.natAbs by
            simp [printVal, intPrint, hn]]
          rw [List.cons_append]
          simp only [parseVal]
          norm_num
          rw [parseDigits_natPrint n.natAbs rest hrest]
          show some (Json.int (-(n.natAbs : Int)), rest) = some (Json.int n, rest)
          have hval : (-(n.natAbs : Int)) = n := by omega
          rw [hval]
        · obtain ⟨c, t, hct, hdig⟩ := natPrint_cons n.toNat
          obtain ⟨h1, h2, h3, h4, h5, h6, h7, -, -, -⟩ := isDig_ne c hdig
          rw [show printVal (Json.int n) = c :: t by simp [printVal, intPrint, hn, hct]]
          rw [List.cons_append]
          simp only [parseVal]
          simp only [h1, h2, h3, h4, h5, h6, h7, hdig, if_false, if_true, ite_false, ite_true]
          rw [show c :: (t ++ rest) = natPrint n.toNat ++ rest by rw [hct, List.cons_append]]
          rw [parseDigits_natPrint n.toNat rest hrest]
          show some (Json.int ((n.toNat : Nat) : Int), rest) = some (Json.int n, rest)
          have hval : ((n.toNat : Nat) : Int) = n := by omega
          rw [hval]
      | str s =>
        rw [show printVal (Json.str s) = '"' :: (esc s.data ++ ['"']) by
          simp [printVal, strLit]]
        rw [List.cons_append]
        rw [show (esc s.data ++ ['"']) ++ rest = esc s.data ++ '"' :: rest by simp]
        simp [parseVal, parseStrBody_esc]
      | arr xs =>
        have hrw : printVal (Json.arr xs) = '[' :: printArr xs := by simp [printVal]
        rw [hrw] at hlen ⊢
        rw [List.cons_append]
        have hxs : (printArr xs).length + 1 ≤ f := by simp at hlen; omega
        simp [parseVal, ihB xs rest hxs]
      | obj kvs =>
        have hrw : printVal (Json.obj kvs) = '{' :: printObj kvs := by simp [printVal]
        rw [hrw] at hlen ⊢
        rw [List.cons_append]
        have hkvs : (printObj kvs).length + 1 ≤ f := by simp at hlen; omega
        simp [parseVal, ihC kvs rest hkvs]
    · -- parseArr
      intro xs rest hlen
      cases xs with
      | nil => simp [printArr, parseArr]
      | cons x xs =>
        obtain ⟨c, t, hct, hne1, -⟩ := printVal_cons x
        have hrw : printArr (x :: xs) = printVal x ++ printArrSep xs := by simp [printArr]
        rw [hrw] at hlen ⊢
        simp only [List.length_append] at hlen
        have hx : (printVal x).length + 1 ≤ f := by
          have := printArrSep_length_pos xs; omega
        have hxs : (printArrSep xs).length + 1 ≤ f := by
          have := printVal_length_pos x; omega
        rw [List.append_assoc, hct, List.cons_append]
        simp only [parseArr]
        simp only [hne1, ite_false, if_false]
        rw [show c :: (t ++ (printArrSep xs ++ rest)) = printVal x ++ (printArrSep xs ++ rest) by
          rw [hct, List.cons_append]]
        rw [ihA x (printArrSep xs ++ rest) hx (restOk_printArrSep xs rest)]
        simp [ihB2 xs rest hxs]
    · -- parseArrSep
      intro xs rest hlen
      cases xs with
      | nil => simp [printArrSep, parseArrSep]
      | cons x xs =>
        have hrw : printArrSep (x :: xs) = ',' :: ' ' :: (printVal x ++ printArrSep xs) := by
          simp [printArrSep]
        rw [hrw] at hlen ⊢
        simp only [List.length_cons, List.length_append] at hlen
        have hx : (printVal x).length + 1 ≤ f := by
          have := printArrSep_length_pos xs; omega
        have hxs : (printArrSep xs).length + 1 ≤ f := by
          have := printVal_length_pos x; omega
        rw [List.cons_append, List.cons_append, List.append_assoc]
        simp only [parseArrSep]
        rw [ihA x (printArrSep xs ++ rest) hx (restOk_printArrSep xs rest)]
        simp [ihB2 xs rest hxs]
    · -- parseObj
      intro kvs rest hlen
      cases kvs with
      | nil => simp [printObj, parseObj]
      | cons kv kvs =>
        obtain ⟨k, v⟩ := kv
        have hrw : printObj ((k, v) :: kvs) =
            '"' :: (esc k.data ++ ('"' :: ':' :: ' ' :: (printVal v ++ printObjSep kvs))) := by
          simp [printObj, strLit]
        rw [hrw] at hlen ⊢
        simp only [List.length_cons, List.length_append] at hlen
        have hd : (printVal v).length + (printObjSep kvs).length + 1 ≤ f := by omega
        rw [List.cons_append]
        simp only [parseObj]
        norm_num
        rw [if_neg (by decide : ¬('"' : Char) = '}')]
        exact ihD k v kvs rest hd
    · -- parseObjSep
      intro kvs rest hlen
      cases kvs with
      | nil => simp [printObjSep, parseObjSep]
      | cons kv kvs =>
        obtain ⟨k, v⟩ := kv
        have hrw : printObjSep ((k, v) :: kvs) =
            ',' :: ' ' :: '"' :: (esc k.data ++ ('"' :: ':' :: ' ' :: (printVal v ++ printObjSep kvs))) := by
          simp [printObjSep, strLit]
        rw [hrw] at hlen ⊢
        simp only [List.length_cons, List.length_append] at hlen
        have hd : (printVal v).length + (printObjSep kvs).length + 1 ≤ f := by omega
        rw [List.cons_append, List.cons_append, List.cons_append]
        simp only [parseObjSep]
        rw [show (esc k.data ++ ('"' :: ':' :: ' ' :: (printVal v ++ printObjSep kvs))) ++ rest =
            esc k.data ++ '"' :: ':' :: ' ' :: (printVal v ++ (printObjSep kvs ++ rest)) by simp]
        rw [ihD k v kvs rest hd]
    · -- parseMember
      intro k v kvs rest hlen
      have hv : (printVal v).length + 1 ≤ f := by
        have := printObjSep_length_pos kvs; omega
      have hkvs : (printObjSep kvs).length + 1 ≤ f := by
        have := printVal_length_pos v; omega
      simp only [parseMember]
      rw [parseStrBody_esc k.data (':' :: ' ' :: (printVal v ++ (printObjSep kvs ++ rest)))]
      simp only []
      rw [ihA v (printObjSep kvs ++ rest) hv (restOk_printObjSep kvs rest)]
      simp [ihC2 kvs rest hkvs]

/-- The codec round-trip: parsing the printed form of any JSON value gives
back exactly that value. -/
theorem decode_encode_aux (v : Json) : decode (encode v) = some v := by
  show (match parseVal ((printVal v).length + 1) (printVal v) with
        | some (v, []) => some v
        | _ => none) = some v
  have h := (parse_print_aux ((printVal v).length + 1)).1 v [] (by omega) rfl
  rw [List.append_nil] at h
  rw [h]

/-- A wire protocol token: the Python `pieces` lists mix strings and raw
integers (integers are stringified later by the transport layer). -/
inductive Tok where
  | s (x : String) : Tok
  | i (n : Int) : Tok
deriving DecidableEq

/-- Modelled from the spec: the root-path token produced by the external
`redis.commands.json.path.Path.root_path()` (§4.1: a fixed sentinel "."). -/
def rootPath : String := "."

/-- How a built operation reaches the store: one immediate command, or an
ordered batch of commands queued on one pipeline with its transaction flag.
A single dispatch returns one reply to the caller; a batch dispatch returns
the pipeline's result list, one entry per queued command. -/
inductive Dispatch where
  | single (cmd : List Tok) : Dispatch
  | batch (cmds : List (List Tok)) (transaction : Bool) : Dispatch
deriving DecidableEq

/-- Whether the caller receives the batch's result list rather than a
single reply. -/
def returnsResultList : Dispatch → Bool
  | .single _ => false
  | .batch _ _ => true

namespace AsyncJSONCommands

/-- AsyncJSONCommands.arrappend (commands.py lines 32-43): `pieces = [name,
str(path)]`, then each value appended after encoding; `path` defaults to
the root path when the caller omits it (`none`). -/
def arrappend (name : String) (path : Option String) (args : List Json) : List Tok :=
  let pieces := [Tok.s name, Tok.s (path.getD rootPath)]
  let pieces := args.foldl (fun acc o => acc ++ [Tok.s (encode o)]) pieces
  Tok.s "JSON.ARRAPPEND" :: pieces

/-- AsyncJSONCommands.arrindex (lines 45-62): `start` is appended only when
provided, and `stop` only inside the `start is not None` branch. -/
def arrindex (name path : String) (scalar : Int) (start stop : Option Int) : List Tok :=
  let pieces := [Tok.s name, Tok.s path, Tok.s (encode (Json.int scalar))]
  let pieces :=
    match start with
    | none => pieces
    | some st =>
      (pieces ++ [Tok.i st]) ++ (match stop with | none => [] | some sp => [Tok.i sp])
  Tok.s "JSON.ARRINDEX" :: pieces

/-- AsyncJSONCommands.arrinsert (lines 64-73): `pieces = [name, str(path),
index]`, then each value appended after encoding. -/
def arrinsert (name path : String) (index : Int) (args : List Json) : List Tok :=
  let pieces := [Tok.s name, Tok.s path, Tok.i index]
  let pieces := args.foldl (fun acc o => acc ++ [Tok.s (encode o)]) pieces
  Tok.s "JSON.ARRINSERT" :: pieces

/-- AsyncJSONCommands.arrlen (lines 75-81): path defaults to root. -/
def arrlen (name : String) (path : Option String) : List Tok :=
  [Tok.s "JSON.ARRLEN", Tok.s name, Tok.s (path.getD rootPath)]

/-- AsyncJSONCommands.strlen (lines 316-325): path defaults to Python None
and the path token is appended only when a path was given. -/
def strlen (name : String) (path : Option String) : List Tok :=
  let pieces := [Tok.s name]
  let pieces := match path with | none => pieces | some p => pieces ++ [Tok.s p]
  Tok.s "JSON.STRLEN" :: pieces

/-- AsyncJSONCommands.mget (lines 182-191): `pieces += keys`, then one
trailing shared path token. -/
def mget (keys : List String) (path : String) : List Tok :=
  let pieces : List Tok := []
  let pieces := pieces ++ keys.map Tok.s
  let pieces := pieces ++ [Tok.s path]
  Tok.s "JSON.MGET" :: pieces

/-- AsyncJSONCommands.mset (lines 232-245): the loop extends `pieces` with
key, path, encoded value for each triplet, in caller order. -/
def mset (triplets : List (String × String × Json)) : List Tok :=
  let pieces := triplets.foldl
    (fun acc t => acc ++ [Tok.s t.1, Tok.s t.2.1, Tok.s (encode t.2.2)]) []
  Tok.s "JSON.MSET" :: pieces

/-- The message of the error raised when both nx and xx are requested
(line 218; the source raises a bare Exception carrying this message). -/
def mutexMsg : String :=
  "nx and xx are mutually exclusive: use one, the other or neither - but not both"

/-- AsyncJSONCommands.set, lines 215-222: the pieces list `[name, str(path),
encoded obj]` plus at most one existence flag, or the mutual-exclusion error
when both nx and xx are requested. -/
def set_pieces (name path : String) (obj : Json) (nx xx : Bool) :
    Except String (List Tok) :=
  let pieces := [Tok.s name, Tok.s path, Tok.s (encode obj)]
  if nx && xx then Except.error mutexMsg
  else if nx then Except.ok (pieces ++ [Tok.s "NX"])
  else if xx then Except.ok (pieces ++ [Tok.s "XX"])
  else Except.ok pieces

/-- AsyncJSONCommands.set (lines 193-230, with decode_keys at its default
False): when `ttl is not None and ttl > 0`, the JSON.SET command and an
EXPIRE command on the same key are queued on one pipeline (transaction=True,
the default of `pipeline()`) and executed together, the caller receiving the
pipeline's result list; otherwise the single JSON.SET command is dispatched.
The EXPIRE token list models the external `pipe.expire(name, ttl)` of
redis-py. -/
def set (name path : String) (obj : Json) (nx xx : Bool) (ttl : Option Int) :
    Except String Dispatch :=
  match set_pieces name path obj nx xx with
  | Except.error e => Except.error e
  | Except.ok pieces =>
    match ttl with
    | some t =>
      if t > 0 then
        Except.ok (Dispatch.batch
          [Tok.s "JSON.SET" :: pieces, [Tok.s "EXPIRE", Tok.s name, Tok.i t]] true)
      else Except.ok (Dispatch.single (Tok.s "JSON.SET" :: pieces))
    | none => Except.ok (Dispatch.single (Tok.s "JSON.SET" :: pieces))

/-- The result of the source's `get` as observed by a Python caller:
either a returned value (`ret none` is Python's None) or a propagated
exception. -/
inductive GetOutcome where
  | ret (v : Option Json) : GetOutcome
  | raise : GetOutcome

/-- Modelled from the spec and the source's get (lines 160-180): the store
replies nil for a missing key (`reply = none`), or the serialized JSON text.
The decode callback (external redis-py / stdlib json) raises TypeError on a
nil reply, which get catches at lines 177-180 and returns Python None
(`ret none`); a reply parsing to JSON null is returned as Python None as
well, because json.loads of "null" IS Python's None; any other parse
failure raises an exception get does not catch. -/
def get_result (reply : Option String) : GetOutcome :=
  match reply with
  | none => GetOutcome.ret none
  | some s =>
    match decode s with
    | some Json.null => GetOutcome.ret none
    | some v => GetOutcome.ret (some v)
    | none => GetOutcome.raise

/-- The fixed allow-list of JSON.DEBUG subcommands (line 353). -/
def valid_subcommands : List String := ["MEMORY", "HELP"]

/-- Python's str() rendering of a list of strings, as interpolated into
the error message by line 355. -/
def pyStrList (l : List String) : String :=
  let q := String.mk [Char.ofNat 39]
  "[" ++ String.intercalate ", " (l.map (fun x => q ++ x ++ q)) ++ "]"

/-- Outcome of the debug builder: a DataError carrying its argument tuple,
or the token list sent to the store. -/
inductive DebugOutcome where
  | err (args : List String) : DebugOutcome
  | cmd (toks : List Tok) : DebugOutcome
deriving DecidableEq

/-- AsyncJSONCommands.debug (lines 345-362): the subcommand is validated
against the allow-list before any token is built; MEMORY additionally
requires a key and appends key and path. -/
def debug (subcommand : String) (key : Option String) (path : Option String) :
    DebugOutcome :=
  if subcommand ∉ valid_subcommands then
    DebugOutcome.err ["The only valid subcommands are ", pyStrList valid_subcommands]
  else
    let pieces := [Tok.s subcommand]
    if subcommand = "MEMORY" then
      match key with
      | none => DebugOutcome.err ["No key specified"]
      | some k =>
        DebugOutcome.cmd
          (Tok.s "JSON.DEBUG" :: (pieces ++ [Tok.s k, Tok.s (path.getD rootPath)]))
    else
      DebugOutcome.cmd (Tok.s "JSON.DEBUG" :: pieces)

end AsyncJSONCommands

/-- C5: For every JSON-representable value v, decoding the encoding of v
yields v again (decode (encode v) = some v); encode is total on the
JSON-representable domain, so an encoding failure can only arise on input
outside that domain. -/
theorem decode_encode_roundtrip (v : Json) : decode (encode v) = some v :=
  decode_encode_aux v

namespace AsyncJSONCommands

theorem foldl_append_chunks {α : Type} (g : α → List Tok) (l : List α) :
    ∀ init : List Tok,
      l.foldl (fun acc t => acc ++ g t) init = init ++ (l.map g).flatten := by
  induction l with
  | nil => intro init; simp
  | cons x xs ih => intro init; simp [ih]

theorem flatten_map_singleton {α : Type} (g : α → Tok) (l : List α) :
    (l.map (fun o => [g o])).flatten = l.map g := by
  induction l with
  | nil => rfl
  | cons x xs ih => simp [ih]

/-- C2: requesting both nx and xx on set fails with the argument error
before any command is dispatched to the store; with at most one of the two
modifiers requested, at most one flag token is appended and it comes last
in the pieces list. -/
theorem set_nx_xx_mutex (name path : String) (obj : Json) (nx xx : Bool)
    (ttl : Option Int) :
    (nx = true → xx = true → set name path obj nx xx ttl = Except.error mutexMsg) ∧
    (¬(nx = true ∧ xx = true) →
      set_pieces name path obj nx xx =
        Except.ok ([Tok.s name, Tok.s path, Tok.s (encode obj)] ++
          (if nx then [Tok.s "NX"] else if xx then [Tok.s "XX"] else [])) ∧
      (if nx then [Tok.s "NX"] else if xx then [Tok.s "XX"] else []).length ≤ 1) := by
  cases nx <;> cases xx <;> simp [set, set_pieces]

/-- C2 witness at a concrete input. -/
theorem set_nx_xx_mutex_w :
    set "doc" rootPath Json.null true true none = Except.error mutexMsg :=
  (set_nx_xx_mutex "doc" rootPath Json.null true true none).1 rfl rfl

/-- C3: set with a positive ttl dispatches exactly two commands in one
transactional pipeline — the JSON.SET command first, then an EXPIRE command
on the same key — and the caller receives the batch's result list rather
than a single reply. -/
theorem set_ttl_two_command_batch (name path : String) (obj : Json) (nx xx : Bool)
    (t : Int) (hpos : 0 < t) (hflags : ¬(nx = true ∧ xx = true)) :
    set name path obj nx xx (some t) =
      Except.ok (Dispatch.batch
        [Tok.s "JSON.SET" :: ([Tok.s name, Tok.s path, Tok.s (encode obj)] ++
           (if nx then [Tok.s "NX"] else if xx then [Tok.s "XX"] else [])),
         [Tok.s "EXPIRE", Tok.s name, Tok.i t]] true) ∧
    returnsResultList (Dispatch.batch
        [Tok.s "JSON.SET" :: ([Tok.s name, Tok.s path, Tok.s (encode obj)] ++
           (if nx then [Tok.s "NX"] else if xx then [Tok.s "XX"] else [])),
         [Tok.s "EXPIRE", Tok.s name, Tok.i t]] true) = true := by
  have ht : t > 0 := hpos
  cases nx <;> cases xx <;> simp_all [set, set_pieces, returnsResultList]

/-- C3 witness at a concrete input. -/
theorem set_ttl_two_command_batch_w :
    set "doc" rootPath Json.null false false (some 5) =
      Except.ok (Dispatch.batch
        [Tok.s "JSON.SET" :: ([Tok.s "doc", Tok.s rootPath, Tok.s (encode Json.null)] ++
           (if false then [Tok.s "NX"] else if false then [Tok.s "XX"] else [])),
         [Tok.s "EXPIRE", Tok.s "doc", Tok.i 5]] true) :=
  (set_ttl_two_command_batch "doc" rootPath Json.null false false 5 (by decide)
    (by simp)).1

/-- C9: a ttl that is zero or negative is silently ignored — set behaves
exactly as if no ttl had been requested, dispatching the single JSON.SET
command with no expiry command and raising no error. -/
theorem set_ttl_nonpos_ignored (name path : String) (obj : Json) (nx xx : Bool)
    (t : Int) (hnp : t ≤ 0) :
    set name path obj nx xx (some t) = set name path obj nx xx none ∧
    (¬(nx = true ∧ xx = true) →
      ∃ pieces, set_pieces name path obj nx xx = Except.ok pieces ∧
        set name path obj nx xx (some t) =
          Except.ok (Dispatch.single (Tok.s "JSON.SET" :: pieces))) := by
  have ht : ¬ t > 0 := by omega
  constructor
  · cases h : set_pieces name path obj nx xx <;> simp [set, h, ht]
  · intro hf
    cases hp : set_pieces name path obj nx xx with
    | error e =>
      exfalso
      cases nx <;> cases xx <;> simp_all [set_pieces]
    | ok pieces => exact ⟨pieces, rfl, by simp [set, hp, ht]⟩

/-- C9 witness at a concrete input. -/
theorem set_ttl_nonpos_ignored_w :
    set "doc" rootPath Json.null false false (some 0) =
      set "doc" rootPath Json.null false false none :=
  (set_ttl_nonpos_ignored "doc" rootPath Json.null false false 0 (by decide)).1

/-- C4 counterexample: strlen with the path omitted emits no path token at
all, while passing the root path explicitly appends it, so the two token
lists differ. -/
theorem strlen_root_path_ce :
    strlen "doc" none ≠ strlen "doc" (some rootPath) ∧
    strlen "doc" none = [Tok.s "JSON.STRLEN", Tok.s "doc"] ∧
    strlen "doc" (some rootPath) = [Tok.s "JSON.STRLEN", Tok.s "doc", Tok.s rootPath] := by
  refine ⟨?_, rfl, rfl⟩
  intro h
  have hlen := congrArg List.length h
  simp [strlen] at hlen

/-- C4 amended: operations whose optional path defaults to the root path
(e.g. arrappend, arrlen) emit identical tokens whether the path is omitted
or the root path is passed explicitly; strlen is the exception — omitting
its path omits the path token entirely instead of emitting the root path. -/
theorem root_path_default_tokens (name : String) (args : List Json) :
    arrappend name none args = arrappend name (some rootPath) args ∧
    arrlen name none = arrlen name (some rootPath) ∧
    strlen name none = [Tok.s "JSON.STRLEN", Tok.s name] ∧
    strlen name (some rootPath) = [Tok.s "JSON.STRLEN", Tok.s name, Tok.s rootPath] :=
  ⟨rfl, rfl, rfl, rfl⟩

/-- C6 counterexample: the error raised for the invalid subcommand "FOO"
carries only the fixed text and the rendered valid set — it does not name
"FOO", and indeed any other invalid subcommand produces the identical
error. -/
theorem debug_error_lacks_subcommand_ce :
    debug "FOO" none none =
      DebugOutcome.err ["The only valid subcommands are ", pyStrList valid_subcommands] ∧
    debug "FOO" none none = debug "BAR" none none := by
  constructor <;> rfl

/-- C6 amended: every debug call with a subcommand outside the fixed
allow-list fails before any token is sent to the store, with an error whose
message names the set of valid subcommands (but not the invalid subcommand
itself). -/
theorem debug_invalid_subcommand (sub : String) (key path : Option String)
    (h : sub ∉ valid_subcommands) :
    debug sub key path =
      DebugOutcome.err ["The only valid subcommands are ", pyStrList valid_subcommands] := by
  simp [debug, h]

/-- C6 witness at a concrete input. -/
theorem debug_invalid_subcommand_w :
    debug "FOO" none none =
      DebugOutcome.err ["The only valid subcommands are ", pyStrList valid_subcommands] :=
  debug_invalid_subcommand "FOO" none none (by decide)

/-- C7: mget emits all keys in caller order followed by exactly one
trailing shared path token; mset emits the repeating key, path,
encoded-value triplets in caller order; neither builder reorders the
caller-supplied groups. -/
theorem mget_mset_token_layout (keys : List String) (path : String)
    (triplets : List (String × String × Json)) :
    mget keys path = Tok.s "JSON.MGET" :: (keys.map Tok.s ++ [Tok.s path]) ∧
    mset triplets = Tok.s "JSON.MSET" ::
      (triplets.map (fun t => [Tok.s t.1, Tok.s t.2.1, Tok.s (encode t.2.2)])).flatten := by
  constructor
  · rfl
  · simp [mset, foldl_append_chunks]

/-- C8: arrappend and arrinsert encode each payload value independently via
the codec and append them as separate tokens preserving caller order; the
built command starts with the verb, then key, then path (then the insertion
index for arrinsert), then the payload tokens, with no modifier flags. -/
theorem arr_variadic_token_layout (name pth : String) (p : Option String)
    (index : Int) (args : List Json) :
    arrappend name p args =
      Tok.s "JSON.ARRAPPEND" :: Tok.s name :: Tok.s (p.getD rootPath) ::
        args.map (fun o => Tok.s (encode o)) ∧
    arrinsert name pth index args =
      Tok.s "JSON.ARRINSERT" :: Tok.s name :: Tok.s pth :: Tok.i index ::
        args.map (fun o => Tok.s (encode o)) := by
  constructor
  · simp [arrappend, foldl_append_chunks, flatten_map_singleton]
  · simp [arrinsert, foldl_append_chunks, flatten_map_singleton]

/-- C10: when start is omitted but stop is provided, stop is silently
dropped from the emitted tokens — the command equals the no-bounds call, so
the search runs over the whole array; stop is emitted exactly when start is
also provided. -/
theorem arrindex_stop_dropped_without_start (name pth : String) (scalar : Int)
    (st sp : Int) :
    arrindex name pth scalar none (some sp) = arrindex name pth scalar none none ∧
    arrindex name pth scalar none (some sp) =
      [Tok.s "JSON.ARRINDEX", Tok.s name, Tok.s pth, Tok.s (encode (Json.int scalar))] ∧
    arrindex name pth scalar (some st) (some sp) =
      [Tok.s "JSON.ARRINDEX", Tok.s name, Tok.s pth, Tok.s (encode (Json.int scalar)),
        Tok.i st, Tok.i sp] := by
  refine ⟨rfl, rfl, ?_⟩
  simp [arrindex]

/-- C1 counterexample: a get whose key the store reports as missing returns
Python None — it is null in the caller's language, and it is the very same
result produced when the stored JSON value is literally null, so the two
cases are not distinguishable and no distinguished Absent sentinel exists. -/
theorem get_missing_is_python_none_ce :
    get_result none = GetOutcome.ret none ∧
    get_result (some (encode Json.null)) = get_result none := by
  refine ⟨rfl, ?_⟩
  simp [get_result, decode_encode_aux Json.null]

/-- C1 amended: a get of a key the store reports as not found returns
Python None without raising an exception; since a stored literal JSON null
also decodes to Python None, the two results coincide rather than being
distinguishable. -/
theorem get_missing_returns_python_none :
    get_result none = GetOutcome.ret none ∧
    get_result (some (encode Json.null)) = GetOutcome.ret none := by
  refine ⟨rfl, ?_⟩
  simp [get_result, decode_encode_aux Json.null]

end AsyncJSONCommands

end FelpsbotRedis
